import Mathlib

/-!
Verification of the sbpf-zkvm trace-to-constraint-system pipeline.

The Rust sources are shallowly embedded: machine integers become `ℕ` (with
explicit `% 2 ^ 64` where Rust wraps or reinterprets), fallible code returns
`Except String`, panics become `Option.none`, and the halo2-base circuit
`Context` becomes an explicit record of the emitted equality constraints and
addition-gate rows, whose cells carry the concrete assigned field values.
-/

/-- `u64::MAX + 1`; also the modulus of `usize` arithmetic (64-bit target). -/
def U64_MOD : ℕ := 2 ^ 64

/-- Rust `x as u64` for a signed integer `x` (`i64` immediates, and `i16`
offsets, which sign-extend to 64 bits first): the two's-complement
reinterpretation, `x mod 2 ^ 64`. -/
def asU64 (x : ℤ) : ℕ := (x % (2 ^ 64 : ℤ)).toNat

/-- The spec's words for a 16-bit offset `o`: "the same 16 bits read as an
unsigned value", that is `o mod 2 ^ 16`.  Kept separate from `asU64` so the
two encodings can be compared. -/
def u16Reinterpret (x : ℤ) : ℕ := (x % (2 ^ 16 : ℤ)).toNat

/-! ## Data model (bpf-tracer/src/trace.rs)

`RegisterState.regs` embeds the Rust `[u64; 12]` as a list of naturals (the
tracer always stores 12 entries: r0–r10 and the PC at index 11). -/

/-- trace.rs `RegisterState`. -/
structure RegisterState where
  regs : List ℕ
deriving DecidableEq, Inhabited

/-- trace.rs `InstructionTrace`. -/
structure InstructionTrace where
  pc : ℕ
  instruction_bytes : List ℕ
  registers_before : RegisterState
  registers_after : RegisterState
deriving DecidableEq, Inhabited

/-- trace.rs `AccountState` (`Pubkey` embedded as its 32 bytes). -/
structure AccountState where
  pubkey : List ℕ
  lamports : ℕ
  data : List ℕ
  owner : List ℕ
  executable : Bool
  rent_epoch : ℕ
deriving DecidableEq, Inhabited

/-- trace.rs `AccountStateChange`. -/
structure AccountStateChange where
  pubkey : List ℕ
  before : AccountState
  after : AccountState
deriving DecidableEq, Inhabited

/-- trace.rs `ExecutionTrace`. -/
structure ExecutionTrace where
  instructions : List InstructionTrace
  account_states : List AccountStateChange
  initial_registers : RegisterState
  final_registers : RegisterState
deriving DecidableEq, Inhabited

/-! ## Tracer loop (bpf-tracer/src/vm.rs, lines 144-175)

The VM itself (solana-sbpf) is an external collaborator; its output is the
`register_trace` buffer, here an arbitrary list of register snapshots.  The
embedded code is the loop that converts the snapshots into
`InstructionTrace` entries.  Rust `usize` arithmetic is modelled exactly:
`saturating_mul` saturates at `usize::MAX`, and the unchecked
`insn_offset + INSN_SIZE` addition is modelled as a checked addition whose
overflow is `none` (in a debug build the Rust addition panics there; in a
release build it wraps and the subsequent slice indexing panics). -/

/-- `ebpf::INSN_SIZE`: 8 bytes per BPF instruction. -/
def INSN_SIZE : ℕ := 8

/-- `usize::MAX` on the 64-bit target. -/
def USIZE_MAX : ℕ := 2 ^ 64 - 1

/-- Rust `usize::saturating_mul`. -/
def saturatingMul (a b : ℕ) : ℕ := min (a * b) USIZE_MAX

/-- Overflow-checked `usize` addition; `none` models the panic. -/
def checkedAdd (a b : ℕ) : Option ℕ :=
  if a + b ≤ USIZE_MAX then some (a + b) else none

/-- vm.rs lines 147-155: the instruction bytes for the snapshot whose PC is
`pc`, extracted from the program text. -/
def extractInsnBytes (programBytes : List ℕ) (pc : ℕ) : Option (List ℕ) :=
  let insn_offset := saturatingMul pc INSN_SIZE
  match checkedAdd insn_offset INSN_SIZE with
  | none => none
  | some hi =>
    if hi ≤ programBytes.length then
      some ((programBytes.drop insn_offset).take INSN_SIZE)
    else
      some (List.replicate INSN_SIZE 0)

/-- One iteration of the vm.rs loop body (lines 144-175): entry `idx` of the
trace, built from the VM's register snapshots, the post-execution register
file and the program text. -/
def buildStep (registerTrace : List (List ℕ)) (finalRegs : List ℕ)
    (programBytes : List ℕ) (idx : ℕ) : Option InstructionTrace :=
  let registers := registerTrace.getD idx []
  let pc := registers.getD 11 0
  (extractInsnBytes programBytes pc).map fun ib =>
    { pc := pc
      instruction_bytes := ib
      registers_before := ⟨registers⟩
      registers_after :=
        ⟨if idx + 1 < registerTrace.length then registerTrace.getD (idx + 1) []
          else finalRegs⟩ }

/-- Sequencing of the loop: collect every entry, aborting on a panic. -/
def optionTraverse {α β : Type} (f : α → Option β) : List α → Option (List β)
  | [] => some []
  | x :: xs =>
    match f x, optionTraverse f xs with
    | some y, some ys => some (y :: ys)
    | _, _ => none

/-- The full vm.rs trace-building loop over snapshot indices `0..n`. -/
def buildInstructionTraces (registerTrace : List (List ℕ)) (finalRegs : List ℕ)
    (programBytes : List ℕ) : Option (List InstructionTrace) :=
  optionTraverse (buildStep registerTrace finalRegs programBytes)
    (List.range registerTrace.length)

/-! ## Witness (prover/src/witness.rs) -/

/-- witness.rs `AccountChange`. -/
structure AccountChange where
  pubkey : List ℕ
  data_before : List ℕ
  data_after : List ℕ
  lamports_before : ℕ
  lamports_after : ℕ
deriving DecidableEq, Inhabited

/-- witness.rs `Witness`. -/
structure Witness where
  initial_registers : List ℕ
  instruction_register_states : List (List ℕ)
  final_registers : List ℕ
  program_counters : List ℕ
  instruction_bytes : List (List ℕ)
  account_changes : List AccountChange
deriving DecidableEq, Inhabited

/-- witness.rs `register_state_to_field_elements`: project r0-r10 (the first
11 of the 12 slots; the PC at index 11 is excluded). -/
def register_state_to_field_elements (regs : RegisterState) : List ℕ :=
  regs.regs.take 11

/-- witness.rs `account_state_to_witness_format`. -/
def account_state_to_witness_format (change : AccountStateChange) : AccountChange :=
  { pubkey := change.pubkey
    data_before := change.before.data
    data_after := change.after.data
    lamports_before := change.before.lamports
    lamports_after := change.after.lamports }

/-- witness.rs `Witness::from_trace` (always `Ok`). -/
def Witness.from_trace (trace : ExecutionTrace) : Except String Witness :=
  .ok
    { initial_registers := register_state_to_field_elements trace.initial_registers
      instruction_register_states :=
        trace.instructions.map fun instr =>
          register_state_to_field_elements instr.registers_after
      final_registers := register_state_to_field_elements trace.final_registers
      program_counters := trace.instructions.map (·.pc)
      instruction_bytes := trace.instructions.map (·.instruction_bytes)
      account_changes := trace.account_states.map account_state_to_witness_format }

/-! ## Witness serialization (witness.rs `to_bytes` / `from_bytes`)

The Rust code delegates to `serde_json` with derived `Serialize` /
`Deserialize`.  serde_json (an external collaborator) is modelled at its
value layer: `to_bytes` produces the JSON value the derived serializer
emits (object fields in declaration order), and `from_bytes` is the derived
deserializer on that value, enforcing the `u64` / `u8` bounds the Rust
types carry. -/

/-- The JSON values the witness serializer produces: non-negative integers,
arrays and objects. -/
inductive Json : Type where
  | num (n : ℕ)
  | arr (items : List Json)
  | obj (fields : List (String × Json))

/-- Serialize a vector of `u64` (or `u8`) values. -/
def jsonOfNatList (l : List ℕ) : Json := .arr (l.map .num)

/-- Serialize a vector of vectors. -/
def jsonOfNatListList (l : List (List ℕ)) : Json := .arr (l.map jsonOfNatList)

/-- Derived serializer for `AccountChange`. -/
def AccountChange.toJson (c : AccountChange) : Json :=
  .obj
    [("pubkey", jsonOfNatList c.pubkey),
     ("data_before", jsonOfNatList c.data_before),
     ("data_after", jsonOfNatList c.data_after),
     ("lamports_before", .num c.lamports_before),
     ("lamports_after", .num c.lamports_after)]

/-- witness.rs `Witness::to_bytes`: the derived serializer (always `Ok`). -/
def Witness.to_bytes (w : Witness) : Except String Json :=
  .ok
    (.obj
      [("initial_registers", jsonOfNatList w.initial_registers),
       ("instruction_register_states", jsonOfNatListList w.instruction_register_states),
       ("final_registers", jsonOfNatList w.final_registers),
       ("program_counters", jsonOfNatList w.program_counters),
       ("instruction_bytes", jsonOfNatListList w.instruction_bytes),
       ("account_changes", .arr (w.account_changes.map AccountChange.toJson))])

/-- Deserialize one `u64`. -/
def decodeU64 : Json → Except String ℕ
  | .num n => if n < U64_MOD then .ok n else .error "u64 out of range"
  | _ => .error "expected a number"

/-- Deserialize one `u8`. -/
def decodeU8 : Json → Except String ℕ
  | .num n => if n < 256 then .ok n else .error "u8 out of range"
  | _ => .error "expected a number"

/-- Element-wise deserialization, aborting on the first error. -/
def exceptMapM {α β : Type} (f : α → Except String β) :
    List α → Except String (List β)
  | [] => .ok []
  | x :: xs =>
    match f x, exceptMapM f xs with
    | .ok y, .ok ys => .ok (y :: ys)
    | .error e, _ => .error e
    | .ok _, .error e => .error e

/-- Deserialize `Vec<u64>`. -/
def decodeU64List : Json → Except String (List ℕ)
  | .arr items => exceptMapM decodeU64 items
  | _ => .error "expected an array"

/-- Deserialize `Vec<u8>`. -/
def decodeU8List : Json → Except String (List ℕ)
  | .arr items => exceptMapM decodeU8 items
  | _ => .error "expected an array"

/-- Deserialize `Vec<Vec<u64>>`. -/
def decodeU64ListList : Json → Except String (List (List ℕ))
  | .arr items => exceptMapM decodeU64List items
  | _ => .error "expected an array"

/-- Deserialize `Vec<Vec<u8>>`. -/
def decodeU8ListList : Json → Except String (List (List ℕ))
  | .arr items => exceptMapM decodeU8List items
  | _ => .error "expected an array"

/-- Derived deserializer for `AccountChange`. -/
def decodeAccountChange : Json → Except String AccountChange
  | .obj [(k1, pk), (k2, db), (k3, da), (k4, lb), (k5, la)] =>
    if k1 = "pubkey" ∧ k2 = "data_before" ∧ k3 = "data_after" ∧
        k4 = "lamports_before" ∧ k5 = "lamports_after" then do
      let pk ← decodeU8List pk
      let db ← decodeU8List db
      let da ← decodeU8List da
      let lb ← decodeU64 lb
      let la ← decodeU64 la
      .ok
        { pubkey := pk, data_before := db, data_after := da,
          lamports_before := lb, lamports_after := la }
    else .error "unexpected field names"
  | _ => .error "expected an AccountChange object"

/-- witness.rs `Witness::from_bytes`: the derived deserializer. -/
def Witness.from_bytes : Json → Except String Witness
  | .obj [(k1, ir), (k2, irs), (k3, fr), (k4, pcs), (k5, ib), (k6, .arr ac)] =>
    if k1 = "initial_registers" ∧ k2 = "instruction_register_states" ∧
        k3 = "final_registers" ∧ k4 = "program_counters" ∧
        k5 = "instruction_bytes" ∧ k6 = "account_changes" then do
      let ir ← decodeU64List ir
      let irs ← decodeU64ListList irs
      let fr ← decodeU64List fr
      let pcs ← decodeU64List pcs
      let ib ← decodeU8ListList ib
      let ac ← exceptMapM decodeAccountChange ac
      .ok
        { initial_registers := ir, instruction_register_states := irs,
          final_registers := fr, program_counters := pcs,
          instruction_bytes := ib, account_changes := ac }
    else .error "unexpected field names"
  | _ => .error "expected a Witness object"

/-- Well-formedness of a `Witness`: the bounds the Rust field types
(`u64` / `u8`) guarantee of every value a real `Witness` holds. -/
def Witness.wf (w : Witness) : Prop :=
  (∀ n ∈ w.initial_registers, n < U64_MOD) ∧
  (∀ l ∈ w.instruction_register_states, ∀ n ∈ l, n < U64_MOD) ∧
  (∀ n ∈ w.final_registers, n < U64_MOD) ∧
  (∀ n ∈ w.program_counters, n < U64_MOD) ∧
  (∀ l ∈ w.instruction_bytes, ∀ n ∈ l, n < 256) ∧
  (∀ c ∈ w.account_changes,
    (∀ n ∈ c.pubkey, n < 256) ∧ (∀ n ∈ c.data_before, n < 256) ∧
    (∀ n ∈ c.data_after, n < 256) ∧
    c.lamports_before < U64_MOD ∧ c.lamports_after < U64_MOD)

instance (w : Witness) : Decidable w.wf := by
  unfold Witness.wf; infer_instance

/-! ## Prover orchestration (prover/src/lib.rs)

`anyhow::Result` becomes `Except String`.  A proof is its byte vector. -/

/-- lib.rs `Proof`. -/
def Proof : Type := List ℕ

/-- Modelled from the spec: the module `prover::public_inputs` (the
`PublicInputs` type and its `from_trace`) is not among the provided source
files, only its callers in prover/src/lib.rs are.  Spec 4.5: "The verifier's
statement is the pair (initial_regs, final_regs)", in the direct MVP form
(r0-r10 of each boundary state). -/
structure PublicInputs where
  initial_regs : List ℕ
  final_regs : List ℕ
deriving DecidableEq, Inhabited

/-- Modelled from the spec: `PublicInputs::from_trace` exposes the trace's
boundary register states (r0-r10) as the statement. -/
def PublicInputs.from_trace (trace : ExecutionTrace) : Except String PublicInputs :=
  .ok
    { initial_regs := trace.initial_registers.regs.take 11
      final_regs := trace.final_registers.regs.take 11 }

/-- lib.rs `generate_witness`: build the structured witness, then serialize. -/
def generate_witness (trace : ExecutionTrace) : Except String Json := do
  let witness ← Witness.from_trace trace
  witness.to_bytes

/-- lib.rs `create_proof`: proof generation is unimplemented; the dummy
proof `[0xDE, 0xAD, 0xBE, 0xEF]` is returned for every witness. -/
def create_proof (witness : Json) : Except String Proof :=
  .ok [0xDE, 0xAD, 0xBE, 0xEF]

/-- lib.rs `verify_proof`: verification is unimplemented; every proof is
accepted (`Ok(true)`), whatever the public inputs say. -/
def verify_proof (proof : Proof) (public_inputs : PublicInputs) :
    Except String Bool :=
  .ok true

/-- lib.rs `prove_execution`. -/
def prove_execution (trace : ExecutionTrace) :
    Except String (Proof × PublicInputs) := do
  let public_inputs ← PublicInputs.from_trace trace
  let witness ← generate_witness trace
  let proof ← create_proof witness
  .ok (proof, public_inputs)

/-- lib.rs `verify_execution`: delegates to `verify_proof`. -/
def verify_execution (proof : Proof) (public_inputs : PublicInputs) :
    Except String Bool :=
  verify_proof proof public_inputs

/-! ## The halo2-base context (zk-circuits)

Cells of the halo2-base `Context` always carry their concretely assigned
value; `constrain_equal` records a copy constraint between two assigned
values, and `gate.add` creates a cell assigned the sum together with its
gate row.  A context is satisfied when every recorded constraint holds of
the assigned values; for a fixed witness assignment this is exactly the
satisfiability of the emitted constraint system. -/

/-- The constraints a chip emits: copy constraints (pairs that must be
equal) and addition-gate rows `(a, b, c)` requiring `c = a + b`. -/
structure Ctx (F : Type) where
  eqConstraints : List (F × F)
  addGates : List (F × F × F)

/-- The context before synthesis begins. -/
def Ctx.empty {F : Type} : Ctx F := ⟨[], []⟩

/-- `ctx.constrain_equal(&a, &b)`. -/
def Ctx.constrainEqual {F : Type} (c : Ctx F) (a b : F) : Ctx F :=
  ⟨(a, b) :: c.eqConstraints, c.addGates⟩

/-- `gate.add(ctx, a, b)`: the returned cell is assigned `a + b`. -/
def Ctx.gateAdd {F : Type} [Add F] (c : Ctx F) (a b : F) : F × Ctx F :=
  (a + b, ⟨c.eqConstraints, (a, b, a + b) :: c.addGates⟩)

/-- All recorded constraints hold of the assigned values. -/
def Ctx.satisfied {F : Type} [Add F] (c : Ctx F) : Prop :=
  (∀ p ∈ c.eqConstraints, p.1 = p.2) ∧ (∀ g ∈ c.addGates, g.2.2 = g.1 + g.2.1)

/-! ## Instruction chips (zk-circuits/src/chips/)

Register indices are `Fin 11`: each constructor asserts `< 11` before the
chip can reach synthesis, and the register arrays have 11 cells. -/

/-- chips/alu64_add_imm.rs `Alu64AddImmChip` (`imm: i64`). -/
structure Alu64AddImmChip where
  dst_reg : Fin 11
  imm : ℤ

/-- chips/alu64_add_imm.rs `Alu64AddImmChip::synthesize`. -/
def Alu64AddImmChip.synthesize {F : Type} [CommRing F] (ch : Alu64AddImmChip)
    (ctx : Ctx F) (regs_before regs_after : Fin 11 → F) : Ctx F :=
  let imm_f : F := ((asU64 ch.imm : ℕ) : F)
  let p := ctx.gateAdd (regs_before ch.dst_reg) imm_f
  let ctx1 := p.2.constrainEqual p.1 (regs_after ch.dst_reg)
  (List.finRange 11).foldl
    (fun c i =>
      if i ≠ ch.dst_reg then c.constrainEqual (regs_before i) (regs_after i)
      else c)
    ctx1

/-- chips/alu64_add_reg.rs `Alu64AddRegChip`. -/
structure Alu64AddRegChip where
  dst_reg : Fin 11
  src_reg : Fin 11

/-- chips/alu64_add_reg.rs `Alu64AddRegChip::synthesize`. -/
def Alu64AddRegChip.synthesize {F : Type} [CommRing F] (ch : Alu64AddRegChip)
    (ctx : Ctx F) (regs_before regs_after : Fin 11 → F) : Ctx F :=
  let p := ctx.gateAdd (regs_before ch.dst_reg) (regs_before ch.src_reg)
  let ctx1 := p.2.constrainEqual p.1 (regs_after ch.dst_reg)
  (List.finRange 11).foldl
    (fun c i =>
      if i ≠ ch.dst_reg then c.constrainEqual (regs_before i) (regs_after i)
      else c)
    ctx1

/-- chips/exit.rs `ExitChip`. -/
structure ExitChip where

/-- chips/exit.rs `ExitChip::synthesize`: all 11 registers unchanged. -/
def ExitChip.synthesize {F : Type} [CommRing F] (ch : ExitChip)
    (ctx : Ctx F) (regs_before regs_after : Fin 11 → F) : Ctx F :=
  (List.finRange 11).foldl
    (fun c i => c.constrainEqual (regs_before i) (regs_after i)) ctx

/-- chips/memory.rs `LdwChip` (`offset: i16`). -/
structure LdwChip where
  dst_reg : Fin 11
  src_reg : Fin 11
  offset : ℤ
  loaded_value : ℕ

/-- chips/memory.rs `LdwChip::synthesize`: the address gate
`regs_before[src] + F(offset as u64)` (result unused), then
`dst_after = loaded_value` and non-interference. -/
def LdwChip.synthesize {F : Type} [CommRing F] (ch : LdwChip)
    (ctx : Ctx F) (regs_before regs_after : Fin 11 → F) : Ctx F :=
  let offset_f : F := ((asU64 ch.offset : ℕ) : F)
  let p := ctx.gateAdd (regs_before ch.src_reg) offset_f
  let loaded_value_f : F := ((ch.loaded_value : ℕ) : F)
  let ctx1 := p.2.constrainEqual loaded_value_f (regs_after ch.dst_reg)
  (List.finRange 11).foldl
    (fun c i =>
      if i ≠ ch.dst_reg then c.constrainEqual (regs_before i) (regs_after i)
      else c)
    ctx1

/-- chips/memory.rs `StwChip` (`offset: i16`). -/
structure StwChip where
  dst_reg : Fin 11
  src_reg : Fin 11
  offset : ℤ

/-- chips/memory.rs `StwChip::synthesize`: the address gate
`regs_before[dst] + F(offset as u64)` (result unused), then all registers
unchanged. -/
def StwChip.synthesize {F : Type} [CommRing F] (ch : StwChip)
    (ctx : Ctx F) (regs_before regs_after : Fin 11 → F) : Ctx F :=
  let offset_f : F := ((asU64 ch.offset : ℕ) : F)
  let p := ctx.gateAdd (regs_before ch.dst_reg) offset_f
  (List.finRange 11).foldl
    (fun c i => c.constrainEqual (regs_before i) (regs_after i)) p.2

/-! ## Aggregate circuit (zk-circuits/src/counter.rs) -/

/-- counter.rs `CounterCircuit::load_register_state`: assign 11 witness
cells from r0-r10 of a snapshot. -/
def loadRegisterState {F : Type} [CommRing F] (regs : RegisterState) :
    Fin 11 → F :=
  fun i => ((regs.regs.getD i 0 : ℕ) : F)

/-- One iteration of the counter.rs per-instruction loop (lines 64-86):
load the after-state, emit the placeholder `gate.add` rows, advance. -/
def counterStep {F : Type} [CommRing F] (acc : (Fin 11 → F) × Ctx F)
    (instr : InstructionTrace) : (Fin 11 → F) × Ctx F :=
  let next := loadRegisterState (F := F) instr.registers_after
  let ctx :=
    (List.finRange 11).foldl (fun c i => (c.gateAdd (acc.1 i) (next i)).2) acc.2
  (next, ctx)

/-- counter.rs `CounterCircuit::synthesize_with_context` (lines 55-95): walk
the trace, then constrain the running state equal to the final state.  The
instruction bytes are never decoded and there is no failure path. -/
def CounterCircuit.synthesizeWithContext {F : Type} [CommRing F]
    (trace : ExecutionTrace) : Except String (Ctx F) :=
  let init := loadRegisterState (F := F) trace.initial_registers
  let s := trace.instructions.foldl counterStep (init, Ctx.empty)
  let final_regs := loadRegisterState (F := F) trace.final_registers
  let ctx :=
    (List.finRange 11).foldl (fun c i => c.constrainEqual (s.1 i) (final_regs i))
      s.2
  .ok ctx

/-- The trace with each instruction's raw bytes replaced (used to state that
synthesis never inspects them). -/
def ExecutionTrace.withInstructionBytes
    (f : InstructionTrace → List ℕ) (t : ExecutionTrace) : ExecutionTrace :=
  { t with
    instructions :=
      t.instructions.map fun it => { it with instruction_bytes := f it } }

/-- The after-state of the last trace entry (the initial state for an empty
trace): the register file the running cells hold when the boundary
constraint is emitted. -/
def lastAfterRegisters (t : ExecutionTrace) : RegisterState :=
  (t.instructions.map (·.registers_after)).getLastD t.initial_registers

/-! ## Context lemmas -/

theorem Ctx.satisfied_empty {F : Type} [Add F] : (Ctx.empty (F := F)).satisfied := by
  constructor <;> intro p hp <;> simp [Ctx.empty] at hp

theorem Ctx.satisfied_constrainEqual {F : Type} [Add F] (c : Ctx F) (a b : F) :
    (c.constrainEqual a b).satisfied ↔ a = b ∧ c.satisfied := by
  simp only [Ctx.satisfied, Ctx.constrainEqual, List.mem_cons, forall_eq_or_imp]
  tauto

theorem Ctx.satisfied_gateAdd {F : Type} [Add F] (c : Ctx F) (a b : F) :
    ((c.gateAdd a b).2).satisfied ↔ c.satisfied := by
  simp only [Ctx.satisfied, Ctx.gateAdd, List.mem_cons, forall_eq_or_imp]
  tauto

/-- Satisfaction of the non-interference loop (`for i in 0..11, if i ≠ dst:
constrain_equal`). -/
theorem Ctx.satisfied_foldl_ite {F : Type} [Add F] {α : Type} (p : α → Prop)
    [DecidablePred p] (f g : α → F) :
    ∀ (l : List α) (c : Ctx F),
      ((l.foldl
          (fun c i => if p i then c.constrainEqual (f i) (g i) else c)
          c).satisfied
        ↔ c.satisfied ∧ ∀ i ∈ l, p i → f i = g i) := by
  intro l
  induction l with
  | nil => intro c; simp
  | cons x xs ih =>
    intro c
    by_cases h : p x
    · simp only [List.foldl_cons, if_pos h, ih, Ctx.satisfied_constrainEqual,
        List.mem_cons, forall_eq_or_imp]
      tauto
    · simp only [List.foldl_cons, if_neg h, ih, List.mem_cons, forall_eq_or_imp]
      tauto

/-- Satisfaction of the unconditional equality loop (`for i in 0..11:
constrain_equal`). -/
theorem Ctx.satisfied_foldl_constrain {F : Type} [Add F] {α : Type}
    (f g : α → F) :
    ∀ (l : List α) (c : Ctx F),
      ((l.foldl (fun c i => c.constrainEqual (f i) (g i)) c).satisfied
        ↔ c.satisfied ∧ ∀ i ∈ l, f i = g i) := by
  intro l
  induction l with
  | nil => intro c; simp
  | cons x xs ih =>
    intro c
    simp only [List.foldl_cons, ih, Ctx.satisfied_constrainEqual,
      List.mem_cons, forall_eq_or_imp]
    tauto

/-- The placeholder `gate.add` rows of the aggregate circuit are satisfied
by construction. -/
theorem Ctx.satisfied_foldl_gateAdd {F : Type} [Add F] {α : Type}
    (f g : α → F) :
    ∀ (l : List α) (c : Ctx F),
      ((l.foldl (fun c i => (c.gateAdd (f i) (g i)).2) c).satisfied
        ↔ c.satisfied) := by
  intro l
  induction l with
  | nil => intro c; simp
  | cons x xs ih => intro c; simp only [List.foldl_cons, ih, Ctx.satisfied_gateAdd]

/-- The equality loops do not touch the recorded gate rows. -/
theorem Ctx.addGates_foldl_ite {F : Type} {α : Type} (p : α → Prop)
    [DecidablePred p] (f g : α → F) :
    ∀ (l : List α) (c : Ctx F),
      (l.foldl
          (fun c i => if p i then c.constrainEqual (f i) (g i) else c)
          c).addGates = c.addGates := by
  intro l
  induction l with
  | nil => intro c; rfl
  | cons x xs ih =>
    intro c
    by_cases h : p x
    · simp only [List.foldl_cons, if_pos h, ih]; rfl
    · simp only [List.foldl_cons, if_neg h, ih]

/-- The unconditional equality loop does not touch the gate rows either. -/
theorem Ctx.addGates_foldl_constrain {F : Type} {α : Type} (f g : α → F) :
    ∀ (l : List α) (c : Ctx F),
      (l.foldl (fun c i => c.constrainEqual (f i) (g i)) c).addGates =
        c.addGates := by
  intro l
  induction l with
  | nil => intro c; rfl
  | cons x xs ih => intro c; simp only [List.foldl_cons, ih]; rfl

/-! ## Claim theorems -/

/-- Claim C3: for every `Alu64AddImmChip` with destination `d < 11` and
immediate `imm`, and every assignment of the register cells, the emitted
constraint system is satisfiable iff
`regs_after[d] = regs_before[d] + F(imm as u64)` and every other register
is unchanged. -/
theorem alu64_add_imm_satisfied_iff {F : Type} [Field F] (d : Fin 11)
    (imm : ℤ) (regs_before regs_after : Fin 11 → F) :
    (Alu64AddImmChip.synthesize ⟨d, imm⟩ Ctx.empty regs_before
        regs_after).satisfied ↔
      (regs_after d = regs_before d + ((asU64 imm : ℕ) : F) ∧
        ∀ i : Fin 11, i ≠ d → regs_after i = regs_before i) := by
  unfold Alu64AddImmChip.synthesize
  rw [Ctx.satisfied_foldl_ite, Ctx.satisfied_constrainEqual,
    Ctx.satisfied_gateAdd]
  simp only [Ctx.gateAdd, Ctx.satisfied_empty, and_true, List.mem_finRange,
    true_implies]
  constructor
  · rintro ⟨h1, h2⟩
    exact ⟨h1.symm, fun i hi => (h2 i hi).symm⟩
  · rintro ⟨h1, h2⟩
    exact ⟨h1.symm, fun i hi => (h2 i hi).symm⟩

/-- Claim C4: for each of the four chips, any assignment that changes a
register other than the chip's target register (no target for EXIT and STW)
makes the emitted constraint system unsatisfiable. -/
theorem chips_non_interference {F : Type} [Field F] :
    (∀ (dst src : Fin 11) (rb ra : Fin 11 → F) (i : Fin 11),
        i ≠ dst → ra i ≠ rb i →
        ¬(Alu64AddRegChip.synthesize ⟨dst, src⟩ Ctx.empty rb ra).satisfied) ∧
    (∀ (rb ra : Fin 11 → F) (i : Fin 11),
        ra i ≠ rb i →
        ¬(ExitChip.synthesize ⟨⟩ Ctx.empty rb ra).satisfied) ∧
    (∀ (dst src : Fin 11) (off : ℤ) (lv : ℕ) (rb ra : Fin 11 → F)
        (i : Fin 11),
        i ≠ dst → ra i ≠ rb i →
        ¬(LdwChip.synthesize ⟨dst, src, off, lv⟩ Ctx.empty rb ra).satisfied) ∧
    (∀ (dst src : Fin 11) (off : ℤ) (rb ra : Fin 11 → F) (i : Fin 11),
        ra i ≠ rb i →
        ¬(StwChip.synthesize ⟨dst, src, off⟩ Ctx.empty rb ra).satisfied) := by
  refine ⟨?_, ?_, ?_, ?_⟩
  · intro dst src rb ra i hi hne hsat
    unfold Alu64AddRegChip.synthesize at hsat
    rw [Ctx.satisfied_foldl_ite] at hsat
    exact hne (hsat.2 i (List.mem_finRange i) hi).symm
  · intro rb ra i hne hsat
    unfold ExitChip.synthesize at hsat
    rw [Ctx.satisfied_foldl_constrain] at hsat
    exact hne (hsat.2 i (List.mem_finRange i)).symm
  · intro dst src off lv rb ra i hi hne hsat
    unfold LdwChip.synthesize at hsat
    rw [Ctx.satisfied_foldl_ite] at hsat
    exact hne (hsat.2 i (List.mem_finRange i) hi).symm
  · intro dst src off rb ra i hne hsat
    unfold StwChip.synthesize at hsat
    rw [Ctx.satisfied_foldl_constrain] at hsat
    exact hne (hsat.2 i (List.mem_finRange i)).symm

/-- Claim C5 (amended): the field constant of the LDW/STW address gate is
`F(offset as u64)`, the 64-bit sign-extension of the 16-bit offset; it
agrees with the spec's "same 16 bits read unsigned" only for non-negative
offsets, and differs from it for every negative offset. -/
theorem memory_offset_embedding {F : Type} [Field F] (dst src : Fin 11)
    (o : ℤ) (lv : ℕ) (rb ra : Fin 11 → F)
    (h1 : -(2 ^ 15) ≤ o) (h2 : o < 2 ^ 15) :
    (LdwChip.synthesize ⟨dst, src, o, lv⟩ Ctx.empty rb ra).addGates =
      [(rb src, ((asU64 o : ℕ) : F), rb src + ((asU64 o : ℕ) : F))] ∧
    (StwChip.synthesize ⟨dst, src, o⟩ Ctx.empty rb ra).addGates =
      [(rb dst, ((asU64 o : ℕ) : F), rb dst + ((asU64 o : ℕ) : F))] ∧
    (0 ≤ o → asU64 o = u16Reinterpret o) ∧
    (o < 0 → (asU64 o : ℤ) = 2 ^ 64 + o ∧ asU64 o ≠ u16Reinterpret o) := by
  refine ⟨?_, ?_, ?_, ?_⟩
  · unfold LdwChip.synthesize
    rw [Ctx.addGates_foldl_ite]
    rfl
  · unfold StwChip.synthesize
    rw [Ctx.addGates_foldl_constrain]
    rfl
  · intro h0
    unfold asU64 u16Reinterpret
    omega
  · intro hneg
    unfold asU64 u16Reinterpret
    omega

/-- Claim C5, counterexample at offset `-8`: the constant the two memory
chips embed is `F(2 ^ 64 - 8)` (the sign-extended reinterpretation), not
`F(65528)` (the same 16 bits read as an unsigned value). -/
theorem memory_offset_cex :
    asU64 (-8) = 2 ^ 64 - 8 ∧
    u16Reinterpret (-8) = 65528 ∧
    ((asU64 (-8) : ℕ) : ℚ) ≠ ((u16Reinterpret (-8) : ℕ) : ℚ) ∧
    (LdwChip.synthesize (F := ℚ) ⟨0, 1, -8, 0⟩ Ctx.empty (fun _ => 0)
        (fun _ => 0)).addGates =
      [(0, ((asU64 (-8) : ℕ) : ℚ), 0 + ((asU64 (-8) : ℕ) : ℚ))] ∧
    (StwChip.synthesize (F := ℚ) ⟨0, 1, -8⟩ Ctx.empty (fun _ => 0)
        (fun _ => 0)).addGates =
      [(0, ((asU64 (-8) : ℕ) : ℚ), 0 + ((asU64 (-8) : ℕ) : ℚ))] := by
  refine ⟨by decide, by decide, ?_, ?_, ?_⟩
  · intro h
    have := (Nat.cast_inj (R := ℚ)).mp h
    rw [show asU64 (-8) = 2 ^ 64 - 8 from by decide,
      show u16Reinterpret (-8) = 65528 from by decide] at this
    omega
  · unfold LdwChip.synthesize
    rw [Ctx.addGates_foldl_ite]
    rfl
  · unfold StwChip.synthesize
    rw [Ctx.addGates_foldl_constrain]
    rfl

/-- Witness instantiating `memory_offset_embedding` at offset `-8` over
`ℚ`: the sign-extended constant is `2 ^ 64 - 8`. -/
theorem memory_offset_embedding_witness :
    (-(2 ^ 15) ≤ (-8 : ℤ)) ∧ ((-8 : ℤ) < 2 ^ 15) ∧
      (asU64 (-8) : ℤ) = 2 ^ 64 + (-8) :=
  ⟨by decide, by decide,
    ((memory_offset_embedding (F := ℚ) 0 1 (-8) 0 (fun _ => 0) (fun _ => 0)
        (by decide) (by decide)).2.2.2 (by decide)).1⟩

/-- The per-instruction loop of the aggregate circuit: its gate rows are
satisfied by construction, and the running register cells end at the last
after-state loaded. -/
theorem counter_foldl_spec {F : Type} [CommRing F] :
    ∀ (l : List InstructionTrace) (init : Fin 11 → F) (c : Ctx F),
      ((l.foldl counterStep (init, c)).2.satisfied ↔ c.satisfied) ∧
      (l.foldl counterStep (init, c)).1 =
        (l.map (·.registers_after)).foldl
          (fun _ r => loadRegisterState (F := F) r) init := by
  intro l
  induction l with
  | nil => intro init c; exact ⟨Iff.rfl, rfl⟩
  | cons x xs ih =>
    intro init c
    simp only [List.foldl_cons, List.map_cons]
    constructor
    · show ((xs.foldl counterStep (counterStep (init, c) x)).2.satisfied ↔ _)
      rw [show counterStep (init, c) x =
          (loadRegisterState (F := F) x.registers_after,
            (List.finRange 11).foldl
              (fun ctx i =>
                (ctx.gateAdd (init i)
                  (loadRegisterState (F := F) x.registers_after i)).2) c)
          from rfl]
      rw [(ih _ _).1, Ctx.satisfied_foldl_gateAdd]
    · rw [(ih _ _).2]
      rfl

/-- Folding the loaded after-states keeps only the last one. -/
theorem load_foldl_getLastD {F : Type} [CommRing F] :
    ∀ (rs : List RegisterState) (d : RegisterState),
      rs.foldl (fun _ r => loadRegisterState (F := F) r)
          (loadRegisterState (F := F) d) =
        loadRegisterState (F := F) (rs.getLastD d) := by
  intro rs
  induction rs with
  | nil => intro d; rfl
  | cons x xs ih =>
    intro d
    rw [List.foldl_cons, List.getLastD_cons]
    exact ih x

/-- Claim C2 (amended): aggregate synthesis performs no opcode decoding and
no chip dispatch, and has no `UnsupportedOpcode` failure: for every trace
(whatever its opcode bytes) it returns `Ok` with a constraint system whose
only binding constraints are the boundary equalities, so it is satisfied
exactly when the last after-state loads equal the final-state loads. -/
theorem counter_synthesis_no_dispatch {F : Type} [Field F]
    (t : ExecutionTrace) :
    ∃ c : Ctx F, CounterCircuit.synthesizeWithContext t = .ok c ∧
      (c.satisfied ↔
        ∀ i : Fin 11,
          loadRegisterState (F := F) (lastAfterRegisters t) i =
            loadRegisterState (F := F) t.final_registers i) := by
  refine ⟨_, rfl, ?_⟩
  rw [Ctx.satisfied_foldl_constrain]
  rw [(counter_foldl_spec t.instructions _ _).1,
    (counter_foldl_spec t.instructions _ _).2]
  rw [load_foldl_getLastD]
  unfold lastAfterRegisters
  simp [Ctx.satisfied_empty, List.mem_finRange]

/-- Claim C10: `synthesize_with_context` returns `Ok(())` for every trace,
arbitrary or unrecognized opcode bytes included; it never inspects the
instruction bytes (replacing them all leaves the synthesized system
unchanged) and has no error path. -/
theorem counter_synthesis_total_and_ignores_bytes {F : Type} [CommRing F]
    (t : ExecutionTrace) (f : InstructionTrace → List ℕ) :
    (CounterCircuit.synthesizeWithContext (F := F) t).isOk = true ∧
    CounterCircuit.synthesizeWithContext (F := F)
        (t.withInstructionBytes f) =
      CounterCircuit.synthesizeWithContext (F := F) t := by
  constructor
  · rfl
  · have hfold :
        ∀ (l : List InstructionTrace) (acc : (Fin 11 → F) × Ctx F),
          (l.map fun it => { it with instruction_bytes := f it }).foldl
              counterStep acc =
            l.foldl counterStep acc := by
      intro l
      induction l with
      | nil => intro acc; rfl
      | cons x xs ih =>
        intro acc
        rw [List.map_cons, List.foldl_cons, List.foldl_cons]
        exact ih _
    simp only [CounterCircuit.synthesizeWithContext,
      ExecutionTrace.withInstructionBytes, hfold]

/-- Inversion for the trace-building sequence: success gives every entry
from its own loop iteration. -/
theorem optionTraverse_some {α β : Type} (f : α → Option β) (da : α) (db : β) :
    ∀ (xs : List α) (ys : List β), optionTraverse f xs = some ys →
      ys.length = xs.length ∧
      ∀ i, i < xs.length → f (xs.getD i da) = some (ys.getD i db) := by
  intro xs
  induction xs with
  | nil =>
    intro ys h
    simp only [optionTraverse, Option.some.injEq] at h
    subst h
    exact ⟨rfl, fun i hi => absurd hi (by simp)⟩
  | cons x xs ih =>
    intro ys h
    unfold optionTraverse at h
    cases hfx : f x with
    | none => rw [hfx] at h; exact absurd h (by simp)
    | some y =>
      rw [hfx] at h
      cases hrec : optionTraverse f xs with
      | none => rw [hrec] at h; exact absurd h (by simp)
      | some ys2 =>
        rw [hrec] at h
        simp only [Option.some.injEq] at h
        subst h
        obtain ⟨hlen, hstep⟩ := ih ys2 hrec
        refine ⟨by simp [hlen], ?_⟩
        intro i hi
        cases i with
        | zero => simpa using hfx
        | succ n =>
          simp only [List.getD_cons_succ]
          exact hstep n (by simpa using hi)

/-- Claim C6: in every trace the vm.rs loop builds, consecutive entries
chain: the after-state of entry `k` is the before-state of entry `k + 1`
(the full 12-slot register file). -/
theorem trace_chain (registerTrace : List (List ℕ))
    (finalRegs programBytes : List ℕ) (l : List InstructionTrace)
    (h : buildInstructionTraces registerTrace finalRegs programBytes = some l)
    (k : ℕ) (hk : k + 1 < l.length) :
    (l.getD k default).registers_after =
      (l.getD (k + 1) default).registers_before := by
  obtain ⟨hlen, hstep⟩ :=
    optionTraverse_some (buildStep registerTrace finalRegs programBytes) 0
      default (List.range registerTrace.length) l h
  rw [List.length_range] at hlen
  have hk2 : k + 1 < registerTrace.length := by omega
  have h1 := hstep k (by simpa using by omega)
  have h2 := hstep (k + 1) (by simpa using hk2)
  rw [show (List.range registerTrace.length).getD k 0 = k by
      rw [List.getD_eq_getElem?_getD, List.getElem?_range (by omega)]; rfl] at h1
  rw [show (List.range registerTrace.length).getD (k + 1) 0 = k + 1 by
      rw [List.getD_eq_getElem?_getD, List.getElem?_range hk2]; rfl] at h2
  simp only [buildStep] at h1 h2
  cases hx1 : extractInsnBytes programBytes
      ((registerTrace.getD k []).getD 11 0) with
  | none => rw [hx1] at h1; exact absurd h1 (by simp)
  | some ib1 =>
    rw [hx1] at h1
    cases hx2 : extractInsnBytes programBytes
        ((registerTrace.getD (k + 1) []).getD 11 0) with
    | none => rw [hx2] at h2; exact absurd h2 (by simp)
    | some ib2 =>
      rw [hx2] at h2
      simp only [Option.map_some', Option.some.injEq] at h1 h2
      rw [← h1, ← h2]
      simp only [if_pos hk2]

/-- Claim C7: `Witness::from_trace` succeeds on every trace and projects
r0-r10 (the first 11 register slots) of the boundary states and of each
per-step after-state. -/
theorem witness_projection (t : ExecutionTrace) :
    ∃ w : Witness, Witness.from_trace t = .ok w ∧
      w.initial_registers = t.initial_registers.regs.take 11 ∧
      w.final_registers = t.final_registers.regs.take 11 ∧
      w.instruction_register_states =
        t.instructions.map fun instr => instr.registers_after.regs.take 11 :=
  ⟨_, rfl, rfl, rfl, rfl⟩

/-- `Except.bind` on a success reduces. -/
theorem except_bind_ok {α β : Type} (a : α) (f : α → Except String β) :
    (Except.ok a : Except String α).bind f = f a := rfl

/-- Decoding a serialized `u64` vector recovers it. -/
theorem exceptMapM_decodeU64_map (l : List ℕ) (h : ∀ n ∈ l, n < U64_MOD) :
    exceptMapM decodeU64 (l.map Json.num) = .ok l := by
  induction l with
  | nil => rfl
  | cons x xs ih =>
    simp only [List.map_cons]
    unfold exceptMapM
    rw [ih fun n hn => h n (List.mem_cons_of_mem _ hn)]
    simp [decodeU64, h x (List.mem_cons_self x xs)]

/-- Decoding a serialized `u8` vector recovers it. -/
theorem exceptMapM_decodeU8_map (l : List ℕ) (h : ∀ n ∈ l, n < 256) :
    exceptMapM decodeU8 (l.map Json.num) = .ok l := by
  induction l with
  | nil => rfl
  | cons x xs ih =>
    simp only [List.map_cons]
    unfold exceptMapM
    rw [ih fun n hn => h n (List.mem_cons_of_mem _ hn)]
    simp [decodeU8, h x (List.mem_cons_self x xs)]

theorem decodeU64List_ofNatList (l : List ℕ) (h : ∀ n ∈ l, n < U64_MOD) :
    decodeU64List (jsonOfNatList l) = .ok l :=
  exceptMapM_decodeU64_map l h

theorem decodeU8List_ofNatList (l : List ℕ) (h : ∀ n ∈ l, n < 256) :
    decodeU8List (jsonOfNatList l) = .ok l :=
  exceptMapM_decodeU8_map l h

theorem decodeU64ListList_ofNatListList (l : List (List ℕ))
    (h : ∀ s ∈ l, ∀ n ∈ s, n < U64_MOD) :
    decodeU64ListList (jsonOfNatListList l) = .ok l := by
  induction l with
  | nil => rfl
  | cons x xs ih =>
    show exceptMapM decodeU64List (jsonOfNatList x :: xs.map jsonOfNatList) =
      .ok (x :: xs)
    unfold exceptMapM
    have hxs := ih fun s hs => h s (List.mem_cons_of_mem _ hs)
    rw [show exceptMapM decodeU64List (xs.map jsonOfNatList) = .ok xs from hxs,
      decodeU64List_ofNatList x (h x (List.mem_cons_self x xs))]

theorem decodeU8ListList_ofNatListList (l : List (List ℕ))
    (h : ∀ s ∈ l, ∀ n ∈ s, n < 256) :
    decodeU8ListList (jsonOfNatListList l) = .ok l := by
  induction l with
  | nil => rfl
  | cons x xs ih =>
    show exceptMapM decodeU8List (jsonOfNatList x :: xs.map jsonOfNatList) =
      .ok (x :: xs)
    unfold exceptMapM
    have hxs := ih fun s hs => h s (List.mem_cons_of_mem _ hs)
    rw [show exceptMapM decodeU8List (xs.map jsonOfNatList) = .ok xs from hxs,
      decodeU8List_ofNatList x (h x (List.mem_cons_self x xs))]

/-- Decoding a serialized `AccountChange` recovers it. -/
theorem decodeAccountChange_toJson (c : AccountChange)
    (hpk : ∀ n ∈ c.pubkey, n < 256) (hdb : ∀ n ∈ c.data_before, n < 256)
    (hda : ∀ n ∈ c.data_after, n < 256) (hlb : c.lamports_before < U64_MOD)
    (hla : c.lamports_after < U64_MOD) :
    decodeAccountChange c.toJson = .ok c := by
  show decodeAccountChange (.obj _) = .ok c
  simp only [decodeAccountChange]
  rw [if_pos (by simp)]
  simp only [bind, Except.bind, decodeU8List_ofNatList _ hpk,
    decodeU8List_ofNatList _ hdb, decodeU8List_ofNatList _ hda, decodeU64,
    if_pos hlb, if_pos hla]

theorem exceptMapM_decodeAccountChange_map (l : List AccountChange)
    (h : ∀ c ∈ l,
      (∀ n ∈ c.pubkey, n < 256) ∧ (∀ n ∈ c.data_before, n < 256) ∧
      (∀ n ∈ c.data_after, n < 256) ∧
      c.lamports_before < U64_MOD ∧ c.lamports_after < U64_MOD) :
    exceptMapM decodeAccountChange (l.map AccountChange.toJson) = .ok l := by
  induction l with
  | nil => rfl
  | cons x xs ih =>
    simp only [List.map_cons]
    unfold exceptMapM
    rw [ih fun c hc => h c (List.mem_cons_of_mem _ hc)]
    obtain ⟨h1, h2, h3, h4, h5⟩ := h x (List.mem_cons_self x xs)
    rw [decodeAccountChange_toJson x h1 h2 h3 h4 h5]

/-- Claim C8: deserializing the serialization of a well-formed witness is
the identity on every field. -/
theorem witness_roundtrip (w : Witness) (h : w.wf) :
    (Witness.to_bytes w).bind Witness.from_bytes = .ok w := by
  obtain ⟨h1, h2, h3, h4, h5, h6⟩ := h
  unfold Witness.to_bytes
  rw [except_bind_ok]
  simp only [Witness.from_bytes]
  rw [if_pos (by simp)]
  simp only [bind, Except.bind, decodeU64List_ofNatList _ h1,
    decodeU64ListList_ofNatListList _ h2, decodeU64List_ofNatList _ h3,
    decodeU64List_ofNatList _ h4, decodeU8ListList_ofNatListList _ h5,
    exceptMapM_decodeAccountChange_map _ h6]

/-- Concrete input for the trace-chain theorem: two snapshots, a distinct
final register file, a 16-byte program. -/
def chainWitnessTraces : List InstructionTrace :=
  [{ pc := 0, instruction_bytes := List.replicate 8 0,
     registers_before := ⟨List.replicate 12 0⟩,
     registers_after := ⟨List.replicate 11 0 ++ [1]⟩ },
   { pc := 1, instruction_bytes := List.replicate 8 0,
     registers_before := ⟨List.replicate 11 0 ++ [1]⟩,
     registers_after := ⟨List.replicate 12 7⟩ }]

/-- Witness for the trace-chain theorem on a concrete two-step trace. -/
theorem trace_chain_witness :
    (chainWitnessTraces.getD 0 default).registers_after =
      (chainWitnessTraces.getD 1 default).registers_before :=
  trace_chain [List.replicate 12 0, List.replicate 11 0 ++ [1]]
    (List.replicate 12 7) (List.replicate 16 0) chainWitnessTraces
    (by decide) 0 (by decide)

/-- Concrete well-formed witness (register states, PCs, instruction bytes
and one account change). -/
def roundtripWitnessValue : Witness :=
  { initial_registers := List.replicate 11 0
    instruction_register_states := [[0, 52, 20, 30, 40, 50, 60, 70, 80, 90, 100]]
    final_registers := [0, 52, 20, 30, 40, 50, 60, 70, 80, 90, 100]
    program_counters := [0]
    instruction_bytes := [[0x07, 0x01, 0x00, 0x00, 0x2A, 0x00, 0x00, 0x00]]
    account_changes :=
      [{ pubkey := List.replicate 32 1, data_before := [0], data_after := [1],
         lamports_before := 5, lamports_after := 6 }] }

/-- Witness for the serialization round-trip on a concrete witness value. -/
theorem witness_roundtrip_witness :
    Witness.wf roundtripWitnessValue ∧
      (Witness.to_bytes roundtripWitnessValue).bind Witness.from_bytes =
        .ok roundtripWitnessValue :=
  ⟨by decide, witness_roundtrip roundtripWitnessValue (by decide)⟩

/-- Claim C9 (amended): the instruction-byte extraction returns the 8-byte
slice at offset `pc * 8` when it fits and eight zero bytes otherwise, and
is total, for every `pc ≤ 2 ^ 61 - 2`; for every `pc ≥ 2 ^ 61 - 1` the
`usize` addition `insn_offset + INSN_SIZE` overflows and the extraction
panics instead of zero-filling. -/
theorem insn_bytes_extraction (programBytes : List ℕ) (pc : ℕ)
    (h : pc ≤ 2 ^ 61 - 2) :
    extractInsnBytes programBytes pc =
      some (if pc * 8 + 8 ≤ programBytes.length
            then (programBytes.drop (pc * 8)).take 8
            else List.replicate 8 0) ∧
    ∀ q : ℕ, 2 ^ 61 - 1 ≤ q → extractInsnBytes programBytes q = none := by
  constructor
  · have hmul : min (pc * 8) (2 ^ 64 - 1) = pc * 8 := by omega
    have hadd : pc * 8 + 8 ≤ 2 ^ 64 - 1 := by omega
    simp only [extractInsnBytes, saturatingMul, checkedAdd, INSN_SIZE,
      USIZE_MAX, hmul, if_pos hadd]
    rw [apply_ite some]
  · intro q hq
    have hbig : ¬(min (q * 8) (2 ^ 64 - 1) + 8 ≤ 2 ^ 64 - 1) := by omega
    simp only [extractInsnBytes, saturatingMul, checkedAdd, INSN_SIZE,
      USIZE_MAX, if_neg hbig]

/-- Witness instantiating the extraction theorem at `pc = 1` on a 16-byte
program. -/
theorem insn_bytes_extraction_witness :
    (1 ≤ 2 ^ 61 - 2) ∧
    extractInsnBytes (List.replicate 16 0) 1 =
      some (if 1 * 8 + 8 ≤ (List.replicate 16 (0 : ℕ)).length
            then ((List.replicate 16 (0 : ℕ)).drop (1 * 8)).take 8
            else List.replicate 8 0) :=
  ⟨by decide, (insn_bytes_extraction (List.replicate 16 0) 1 (by decide)).1⟩

/-- Claim C9, counterexample: at `pc = 2 ^ 61 - 1` (within `u64`) on a
16-byte program, the offset addition overflows `usize` and the extraction
panics; it does not produce the eight zero bytes the claim asserts. -/
theorem insn_bytes_overflow_cex :
    extractInsnBytes (List.replicate 16 0) (2 ^ 61 - 1) = none ∧
    extractInsnBytes (List.replicate 16 0) (2 ^ 61 - 1) ≠
      some (List.replicate 8 0) :=
  ⟨by decide, by decide⟩

/-- Claim C1 (amended): `verify_execution` (via `verify_proof`) is an
unimplemented stub: it returns `Ok(true)` for every proof and every public
inputs, whether or not the claimed boundary states match any trace. -/
theorem verify_execution_accepts_all (proof : Proof)
    (public_inputs : PublicInputs) :
    verify_execution proof public_inputs = .ok true := rfl

/-- The all-zero register file. -/
def zeroRegs : RegisterState := ⟨List.replicate 12 0⟩

/-- An empty trace whose boundary states are both zero. -/
def traceIdentity : ExecutionTrace :=
  { instructions := [], account_states := [],
    initial_registers := zeroRegs, final_registers := zeroRegs }

/-- An empty trace whose final register file has `r0 = 42`. -/
def traceNonzero : ExecutionTrace :=
  { instructions := [], account_states := [],
    initial_registers := zeroRegs,
    final_registers := ⟨42 :: List.replicate 11 0⟩ }

/-- Claim C1, counterexample: the proof produced from `traceIdentity`
verifies against public inputs produced from `traceNonzero`, whose claimed
final state (r0 = 42) does not match `traceIdentity`'s boundary. -/
theorem verify_execution_boundary_cex :
    prove_execution traceIdentity =
      .ok ([0xDE, 0xAD, 0xBE, 0xEF],
        ⟨List.replicate 11 0, List.replicate 11 0⟩) ∧
    PublicInputs.from_trace traceNonzero =
      .ok ⟨List.replicate 11 0, 42 :: List.replicate 10 0⟩ ∧
    (42 :: List.replicate 10 0 : List ℕ) ≠
      traceIdentity.final_registers.regs.take 11 ∧
    verify_execution [0xDE, 0xAD, 0xBE, 0xEF]
      ⟨List.replicate 11 0, 42 :: List.replicate 10 0⟩ = .ok true :=
  ⟨rfl, rfl, by decide, rfl⟩

/-- A one-step trace whose opcode byte (0xFF) has no registered chip. -/
def traceUnknownOpcode : ExecutionTrace :=
  { instructions :=
      [{ pc := 0, instruction_bytes := [0xFF, 0, 0, 0, 0, 0, 0, 0],
         registers_before := zeroRegs, registers_after := zeroRegs }],
    account_states := [], initial_registers := zeroRegs,
    final_registers := zeroRegs }

/-- Claim C2, counterexample: synthesis over a trace carrying an opcode
byte with no registered chip still succeeds, and a proof is still
produced; no `UnsupportedOpcode` error exists in the pipeline. -/
theorem counter_unknown_opcode_cex :
    (CounterCircuit.synthesizeWithContext (F := ℚ) traceUnknownOpcode).isOk =
      true ∧
    (prove_execution traceUnknownOpcode).isOk = true :=
  ⟨rfl, rfl⟩
